import Mathlib

/-!
Verification of the resistor band-decoding core of the repository
(`server/main.py`): the color-code table, the alias normalizer
`norm_color`, the band decoder `compute_value_from_colors`, the E24
snapper `snap_e24`, the display formatter `human`, and the orientation
correction performed by the `analyze` endpoint.

Python floats are modelled as exact rationals (`ℚ`); `None` becomes
`Option`.  `np.floor(np.log10 v)` is `Int.log 10 v`, which satisfies
`10 ^ (Int.log 10 v) ≤ v < 10 ^ (Int.log 10 v + 1)` for `v > 0`.
-/

namespace ResistorReader

/-- One row of the `COLOR_CODE` table: optional digit, optional
multiplier, optional tolerance percentage. -/
structure ColorEntry where
  digit : Option ℕ
  multiplier : Option ℚ
  tolerance : Option ℚ
deriving DecidableEq, Repr

/-- The `COLOR_CODE` dict of `main.py` (lines 23–36); a missing key is
`none`, mirroring `dict.get(color, {})`. -/
def COLOR_CODE : String → Option ColorEntry
  | "black"  => some ⟨some 0, some 1, none⟩
  | "brown"  => some ⟨some 1, some 10, some 1⟩
  | "red"    => some ⟨some 2, some 100, some 2⟩
  | "orange" => some ⟨some 3, some 1000, none⟩
  | "yellow" => some ⟨some 4, some 10000, none⟩
  | "green"  => some ⟨some 5, some 100000, some (1/2)⟩
  | "blue"   => some ⟨some 6, some 1000000, some (1/4)⟩
  | "violet" => some ⟨some 7, some 10000000, some (1/10)⟩
  | "grey"   => some ⟨some 8, some 100000000, some (1/20)⟩
  | "white"  => some ⟨some 9, some 1000000000, none⟩
  | "gold"   => some ⟨none, some (1/10), some 5⟩
  | "silver" => some ⟨none, some (1/100), some 10⟩
  | _        => none

/-- `COLOR_CODE.get(c, {}).get("digit")`. -/
def getDigit (c : String) : Option ℕ := (COLOR_CODE c).bind ColorEntry.digit

/-- `COLOR_CODE.get(c, {}).get("multiplier")`. -/
def getMult (c : String) : Option ℚ := (COLOR_CODE c).bind ColorEntry.multiplier

/-- `COLOR_CODE.get(c, {}).get("tolerance")`. -/
def getTol (c : String) : Option ℚ := (COLOR_CODE c).bind ColorEntry.tolerance

/-- `TOL_COLORS` of `main.py` line 37 (a Python set; order is irrelevant,
only membership is used). -/
def TOL_COLORS : List String :=
  ["brown", "red", "green", "blue", "violet", "grey", "gold", "silver"]

/-- The `ALIASES` dict of `main.py` (lines 40–43). -/
def ALIASES : String → Option String
  | "gray" => some "grey"
  | "purple" => some "violet"
  | "golden" => some "gold"
  | "silver color" => some "silver"
  | "orange-brown" => some "orange"
  | "reddish" => some "red"
  | "brownish" => some "brown"
  | _ => none

/-- Python's `str.lower()` (ASCII case folding), character by
character. -/
def pyLower (s : String) : String := ⟨s.data.map Char.toLower⟩

/-- Python's `str.strip()`: drop whitespace from both ends. -/
def pyStrip (s : String) : String :=
  ⟨((s.data.dropWhile Char.isWhitespace).reverse.dropWhile Char.isWhitespace).reverse⟩

/-- `norm_color` of `main.py` (lines 44–46): strip, lowercase, then
apply the alias map with the stripped lowercased string as fallback
(`ALIASES.get(c, c)`). -/
def norm_color (name : String) : String :=
  let c := pyLower (pyStrip name)
  (ALIASES c).getD c

/-- A color that cannot serve as a significant digit: gold, silver, or
absent from the color table altogether. -/
def badDigitColor (c : String) : Prop :=
  c = "gold" ∨ c = "silver" ∨ COLOR_CODE c = none

/-- `compute_value_from_colors` of `main.py` (lines 57–84), dispatching
on the length of the list exactly as the `if/elif` chain does. -/
def compute_value_from_colors : List String → Option ℚ × Option ℚ
  | [c0, c1, c2, c3] =>
    let d1 := getDigit c0
    let d2 := getDigit c1
    let mult := getMult c2
    let tol := getTol c3
    (match d1, d2, mult with
     | some a, some b, some m => some (((a : ℚ) * 10 + b) * m)
     | _, _, _ => none, tol)
  | [c0, c1, c2, c3, c4] =>
    let d1 := getDigit c0
    let d2 := getDigit c1
    let d3 := getDigit c2
    let mult := getMult c3
    let tol := getTol c4
    (match d1, d2, d3, mult with
     | some a, some b, some c, some m => some (((a : ℚ) * 100 + (b : ℚ) * 10 + c) * m)
     | _, _, _, _ => none, tol)
  | [c0, c1, c2] =>
    let d1 := getDigit c0
    let d2 := getDigit c1
    let mult := getMult c2
    (match d1, d2, mult with
     | some a, some b, some m => some (((a : ℚ) * 10 + b) * m)
     | _, _, _ => none, none)
  | c0 :: c1 :: c2 :: c3 :: c4 :: _ :: _ =>
    let d1 := getDigit c0
    let d2 := getDigit c1
    let d3 := getDigit c2
    let mult := getMult c3
    let tol := getTol c4
    (match d1, d2, d3, mult with
     | some a, some b, some c, some m => some (((a : ℚ) * 100 + (b : ℚ) * 10 + c) * m)
     | _, _, _, _ => none, tol)
  | _ => (none, none)

/-- The `E24` table of `main.py` line 49. -/
def E24 : List ℚ :=
  [10, 11, 12, 13, 15, 16, 18, 20, 22, 24, 27, 30, 33, 36, 39, 43, 47, 51, 56,
   62, 68, 75, 82, 91]

/-- `np.argmin(np.abs(E24 - norm))` followed by indexing: the first
entry of `E24` whose distance to `t` is minimal (a later entry replaces
the current best only when strictly closer, exactly np.argmin's
first-minimum rule). -/
def pickE24 (t : ℚ) : ℚ :=
  E24.foldl (fun best x => if |x - t| < |best - t| then x else best) 10

/-- One step of the `np.argmin` scan of `pickE24`: keep the incumbent
unless the new entry is strictly closer to `t`. -/
def pickStep (t best x : ℚ) : ℚ := if |x - t| < |best - t| then x else best

/-- `snap_e24` of `main.py` (lines 50–55) over exact rationals:
`Int.log 10 v` is `floor(log10 v)` for `v > 0`. -/
def snap_e24 (v : Option ℚ) : Option ℚ :=
  match v with
  | none => none
  | some v =>
    if v ≤ 0 then some v
    else
      let decade : ℚ := (10 : ℚ) ^ Int.log 10 v
      let norm : ℚ := v / decade * 10
      some (pickE24 norm / 10 * decade)

/-- Rounding to the nearest integer with ties to even, the rounding
Python's float formatting applies (decimal rendering of the ideal
value; double-rounding artifacts of binary floats are not modelled). -/
def roundHalfEven (q : ℚ) : ℤ :=
  let f := ⌊q⌋
  let frac := q - f
  if frac < 1/2 then f
  else if 1/2 < frac then f + 1
  else if f % 2 = 0 then f else f + 1

/-- Renders `q` with exactly two decimal places, as Python's `f"{q:.2f}"`. -/
def twoDec (q : ℚ) : String :=
  let n := roundHalfEven (q * 100)
  let sign := if n < 0 then "-" else ""
  let m := n.natAbs
  let ip := m / 100
  let fp := m % 100
  sign ++ toString ip ++ "." ++ (if fp < 10 then "0" else "") ++ toString fp

/-- `human` of `main.py` (lines 86–90): walk the unit ladder, emit at
the first scale the value meets, else plain ohms. -/
def human (v : Option ℚ) : Option String :=
  match v with
  | none => none
  | some v =>
    if v ≥ 1000000000 then some (twoDec (v / 1000000000) ++ " GΩ")
    else if v ≥ 1000000 then some (twoDec (v / 1000000) ++ " MΩ")
    else if v ≥ 1000 then some (twoDec (v / 1000) ++ " kΩ")
    else if v ≥ 1 then some (twoDec (v / 1) ++ " Ω")
    else some (twoDec v ++ " Ω")

/-- The orientation-correction step of the `analyze` endpoint
(`main.py` lines 285–290): reverse when the first band's color is in
`TOL_COLORS` and the last band's is not. -/
def orient (colors : List String) : List String :=
  if colors.isEmpty then colors
  else if colors.headD "" ∈ TOL_COLORS ∧ colors.getLastD "" ∉ TOL_COLORS then
    colors.reverse
  else colors

/-- A gold, silver or unrecognized color has no digit entry. -/
theorem getDigit_of_bad {c : String} (h : badDigitColor c) : getDigit c = none := by
  rcases h with rfl | rfl | h
  · rfl
  · rfl
  · simp [getDigit, h]

/-- A color missing from the table has no multiplier entry. -/
theorem getMult_of_missing {c : String} (h : COLOR_CODE c = none) :
    getMult c = none := by
  simp [getMult, h]

/-- 3-band decoding with a failed required lookup yields no value. -/
theorem decode3_fail (c0 c1 c2 : String)
    (h : getDigit c0 = none ∨ getDigit c1 = none ∨ getMult c2 = none) :
    compute_value_from_colors [c0, c1, c2] = (none, none) := by
  cases h1 : getDigit c0 <;> cases h2 : getDigit c1 <;> cases h3 : getMult c2 <;>
    simp_all [compute_value_from_colors]

/-- 4-band decoding with a failed required lookup yields no value but
keeps the tolerance entry of the 4th color. -/
theorem decode4_fail (c0 c1 c2 c3 : String)
    (h : getDigit c0 = none ∨ getDigit c1 = none ∨ getMult c2 = none) :
    compute_value_from_colors [c0, c1, c2, c3] = (none, getTol c3) := by
  cases h1 : getDigit c0 <;> cases h2 : getDigit c1 <;> cases h3 : getMult c2 <;>
    simp_all [compute_value_from_colors]

/-- 5-band decoding with a failed required lookup yields no value but
keeps the tolerance entry of the 5th color. -/
theorem decode5_fail (c0 c1 c2 c3 c4 : String)
    (h : getDigit c0 = none ∨ getDigit c1 = none ∨ getDigit c2 = none ∨
      getMult c3 = none) :
    compute_value_from_colors [c0, c1, c2, c3, c4] = (none, getTol c4) := by
  cases h1 : getDigit c0 <;> cases h2 : getDigit c1 <;> cases h3 : getDigit c2 <;>
    cases h4 : getMult c3 <;> simp_all [compute_value_from_colors]

/-- ≥6-band decoding with a failed required lookup yields no value but
keeps the tolerance entry of the 5th color. -/
theorem decode6_fail (c0 c1 c2 c3 c4 c5 : String) (rest : List String)
    (h : getDigit c0 = none ∨ getDigit c1 = none ∨ getDigit c2 = none ∨
      getMult c3 = none) :
    compute_value_from_colors (c0 :: c1 :: c2 :: c3 :: c4 :: c5 :: rest)
      = (none, getTol c4) := by
  cases h1 : getDigit c0 <;> cases h2 : getDigit c1 <;> cases h3 : getDigit c2 <;>
    cases h4 : getMult c3 <;> simp_all [compute_value_from_colors]

/-- **C1.** For a 4-band sequence whose first two colors have digit
entries and whose third has a multiplier entry, `decode` returns
`value = (10·d1 + d2) · multiplier` and a tolerance equal to the
table's tolerance entry for the 4th color (absent when that color has
none); for a 5-band sequence whose first three colors have digit
entries and whose fourth has a multiplier entry, it returns
`value = (100·d1 + 10·d2 + d3) · multiplier`. -/
theorem decode_valid_four_and_five_band :
    (∀ (c0 c1 c2 c3 : String) (d1 d2 : ℕ) (m : ℚ),
        getDigit c0 = some d1 → getDigit c1 = some d2 → getMult c2 = some m →
        compute_value_from_colors [c0, c1, c2, c3]
          = (some ((10 * (d1 : ℚ) + d2) * m), getTol c3)) ∧
    (∀ (c0 c1 c2 c3 c4 : String) (d1 d2 d3 : ℕ) (m : ℚ),
        getDigit c0 = some d1 → getDigit c1 = some d2 → getDigit c2 = some d3 →
        getMult c3 = some m →
        (compute_value_from_colors [c0, c1, c2, c3, c4]).1
          = some ((100 * (d1 : ℚ) + 10 * d2 + d3) * m)) := by
  constructor
  · intro c0 c1 c2 c3 d1 d2 m h1 h2 hm
    simp only [compute_value_from_colors, h1, h2, hm, Prod.mk.injEq,
      Option.some.injEq]
    exact ⟨by ring, trivial⟩
  · intro c0 c1 c2 c3 c4 d1 d2 d3 m h1 h2 h3 hm
    simp only [compute_value_from_colors, h1, h2, h3, hm]
    congr 1
    ring

/-- Witness for C1: a valid 4-band reading (yellow-violet-red-gold) and
a valid 5-band reading (brown-black-red-yellow-gold). -/
theorem decode_valid_four_and_five_band_witness :
    compute_value_from_colors ["yellow", "violet", "red", "gold"]
      = (some ((10 * ((4 : ℕ) : ℚ) + ((7 : ℕ) : ℚ)) * 100), getTol "gold") ∧
    (compute_value_from_colors ["brown", "black", "red", "yellow", "gold"]).1
      = some ((100 * ((1 : ℕ) : ℚ) + 10 * ((0 : ℕ) : ℚ) + ((2 : ℕ) : ℚ)) * 10000) :=
  ⟨decode_valid_four_and_five_band.1 "yellow" "violet" "red" "gold" 4 7 100 rfl rfl rfl,
   decode_valid_four_and_five_band.2 "brown" "black" "red" "yellow" "gold" 1 0 2 10000
     rfl rfl rfl rfl⟩

/-- **C3.** For band sequences of length 4, 5 and ≥ 6, if any required
digit or multiplier lookup fails the decoder returns an absent value
(never a partial number) while still returning whatever tolerance entry
was found for the tolerance-position color (index 3 for 4 bands, index
4 otherwise). -/
theorem decode_short_circuit :
    (∀ c0 c1 c2 c3 : String,
        getDigit c0 = none ∨ getDigit c1 = none ∨ getMult c2 = none →
        compute_value_from_colors [c0, c1, c2, c3] = (none, getTol c3)) ∧
    (∀ c0 c1 c2 c3 c4 : String,
        getDigit c0 = none ∨ getDigit c1 = none ∨ getDigit c2 = none ∨
          getMult c3 = none →
        compute_value_from_colors [c0, c1, c2, c3, c4] = (none, getTol c4)) ∧
    (∀ (c0 c1 c2 c3 c4 c5 : String) (rest : List String),
        getDigit c0 = none ∨ getDigit c1 = none ∨ getDigit c2 = none ∨
          getMult c3 = none →
        compute_value_from_colors (c0 :: c1 :: c2 :: c3 :: c4 :: c5 :: rest)
          = (none, getTol c4)) := by
  exact ⟨decode4_fail, decode5_fail, decode6_fail⟩

/-- Witness for C3: a failed digit lookup in a 4-band read (gold has no
digit entry), and a failed multiplier lookup in 5- and 6-band reads
("cyan" is not in the table); the gold tolerance entry survives. -/
theorem decode_short_circuit_witness :
    compute_value_from_colors ["gold", "black", "red", "gold"] = (none, getTol "gold") ∧
    compute_value_from_colors ["white", "white", "white", "cyan", "gold"]
      = (none, getTol "gold") ∧
    compute_value_from_colors ["white", "white", "white", "cyan", "gold", "red"]
      = (none, getTol "gold") :=
  ⟨decode_short_circuit.1 "gold" "black" "red" "gold" (Or.inl rfl),
   decode_short_circuit.2.1 "white" "white" "white" "cyan" "gold"
     (Or.inr (Or.inr (Or.inr rfl))),
   decode_short_circuit.2.2 "white" "white" "white" "cyan" "gold" "red" []
     (Or.inr (Or.inr (Or.inr rfl)))⟩

/-- **C4.** A sequence of length ≥ 6 decodes exactly like its first
five elements; in particular a 6-band sequence decodes identically to
the 5-band sequence obtained by dropping its last element. -/
theorem decode_six_band_ignores_tail :
    (∀ colors : List String, 6 ≤ colors.length →
        compute_value_from_colors colors = compute_value_from_colors (colors.take 5)) ∧
    (∀ colors : List String, colors.length = 6 →
        compute_value_from_colors colors = compute_value_from_colors colors.dropLast) := by
  constructor
  · intro colors h
    rcases colors with _ | ⟨c0, _ | ⟨c1, _ | ⟨c2, _ | ⟨c3, _ | ⟨c4, _ | ⟨c5, rest⟩⟩⟩⟩⟩⟩ <;>
      rfl
  · intro colors h
    rcases colors with _ | ⟨c0, _ | ⟨c1, _ | ⟨c2, _ | ⟨c3, _ | ⟨c4, _ | ⟨c5, rest⟩⟩⟩⟩⟩⟩ <;>
      simp_all
    rcases rest with _ | ⟨c6, rest⟩
    · rfl
    · simp at h

/-- Witness for C4 on a concrete 6-band sequence. -/
theorem decode_six_band_ignores_tail_witness :
    compute_value_from_colors ["brown", "black", "red", "yellow", "gold", "orange"]
      = compute_value_from_colors
          (["brown", "black", "red", "yellow", "gold", "orange"].take 5) ∧
    compute_value_from_colors ["brown", "black", "red", "yellow", "gold", "orange"]
      = compute_value_from_colors
          ["brown", "black", "red", "yellow", "gold", "orange"].dropLast :=
  ⟨decode_six_band_ignores_tail.1 _ (by decide),
   decode_six_band_ignores_tail.2 _ (by decide)⟩

/-- **C2, counterexample.** In the 4-band sequence
`["brown","black","gold","gold"]` the required multiplier position
(index 2) holds gold, yet the decoder returns the present value 1 —
gold has a multiplier entry of 1/10 — so "decode returns an absent
value whenever any color in a required digit or multiplier position is
gold, silver, or not a key of the color table" is false. -/
theorem decode_gold_multiplier_counterexample :
    ["brown", "black", "gold", "gold"].getD 2 "" = "gold" ∧
    (compute_value_from_colors ["brown", "black", "gold", "gold"]).1 = some 1 := by
  refine ⟨rfl, ?_⟩
  norm_num [compute_value_from_colors, getDigit, getMult, COLOR_CODE]

/-- **C2 (amended).** The decoder returns an absent value whenever any
color in a required digit position is gold, silver, or not a key of
the color table, or the color in the required multiplier position is
not a key of the color table (gold and silver do carry multiplier
entries, so they are legal in the multiplier position).  Digit
positions are 0–1 for 3- and 4-band reads and 0–2 for 5-band and
longer; the multiplier position is the following index. -/
theorem decode_absent_on_bad_required_lookup :
    (∀ c0 c1 c2 : String,
        badDigitColor c0 ∨ badDigitColor c1 ∨ COLOR_CODE c2 = none →
        (compute_value_from_colors [c0, c1, c2]).1 = none) ∧
    (∀ c0 c1 c2 c3 : String,
        badDigitColor c0 ∨ badDigitColor c1 ∨ COLOR_CODE c2 = none →
        (compute_value_from_colors [c0, c1, c2, c3]).1 = none) ∧
    (∀ c0 c1 c2 c3 c4 : String,
        badDigitColor c0 ∨ badDigitColor c1 ∨ badDigitColor c2 ∨
          COLOR_CODE c3 = none →
        (compute_value_from_colors [c0, c1, c2, c3, c4]).1 = none) ∧
    (∀ (c0 c1 c2 c3 c4 c5 : String) (rest : List String),
        badDigitColor c0 ∨ badDigitColor c1 ∨ badDigitColor c2 ∨
          COLOR_CODE c3 = none →
        (compute_value_from_colors (c0 :: c1 :: c2 :: c3 :: c4 :: c5 :: rest)).1
          = none) := by
  refine ⟨?_, ?_, ?_, ?_⟩
  · intro c0 c1 c2 h
    rw [decode3_fail c0 c1 c2 ?_]
    rcases h with h | h | h
    exacts [Or.inl (getDigit_of_bad h), Or.inr (Or.inl (getDigit_of_bad h)),
      Or.inr (Or.inr (getMult_of_missing h))]
  · intro c0 c1 c2 c3 h
    rw [decode4_fail c0 c1 c2 c3 ?_]
    rcases h with h | h | h
    exacts [Or.inl (getDigit_of_bad h), Or.inr (Or.inl (getDigit_of_bad h)),
      Or.inr (Or.inr (getMult_of_missing h))]
  · intro c0 c1 c2 c3 c4 h
    rw [decode5_fail c0 c1 c2 c3 c4 ?_]
    rcases h with h | h | h | h
    exacts [Or.inl (getDigit_of_bad h), Or.inr (Or.inl (getDigit_of_bad h)),
      Or.inr (Or.inr (Or.inl (getDigit_of_bad h))),
      Or.inr (Or.inr (Or.inr (getMult_of_missing h)))]
  · intro c0 c1 c2 c3 c4 c5 rest h
    rw [decode6_fail c0 c1 c2 c3 c4 c5 rest ?_]
    rcases h with h | h | h | h
    exacts [Or.inl (getDigit_of_bad h), Or.inr (Or.inl (getDigit_of_bad h)),
      Or.inr (Or.inr (Or.inl (getDigit_of_bad h))),
      Or.inr (Or.inr (Or.inr (getMult_of_missing h)))]

/-- Witness for the amended C2: silver in a digit position of a 3-band
read, gold in a digit position of a 4-band read, an unknown color in a
digit position of a 5-band read, and an unknown multiplier color in a
6-band read all yield an absent value. -/
theorem decode_absent_on_bad_required_lookup_witness :
    (compute_value_from_colors ["silver", "black", "red"]).1 = none ∧
    (compute_value_from_colors ["gold", "black", "red", "gold"]).1 = none ∧
    (compute_value_from_colors ["brown", "teal", "black", "red", "gold"]).1 = none ∧
    (compute_value_from_colors ["brown", "black", "black", "teal", "gold", "red"]).1
      = none :=
  ⟨decode_absent_on_bad_required_lookup.1 "silver" "black" "red"
      (Or.inl (Or.inr (Or.inl rfl))),
   decode_absent_on_bad_required_lookup.2.1 "gold" "black" "red" "gold"
      (Or.inl (Or.inl rfl)),
   decode_absent_on_bad_required_lookup.2.2.1 "brown" "teal" "black" "red" "gold"
      (Or.inr (Or.inl (Or.inr (Or.inr rfl)))),
   decode_absent_on_bad_required_lookup.2.2.2 "brown" "black" "black" "teal"
      "gold" "red" [] (Or.inr (Or.inr (Or.inr rfl)))⟩

/-- **C7, counterexample.** `["gold","red","violet","brown"]` is *not*
reversed by the orientation step: brown, the last color, is itself in
`TOL_COLORS`, so the reverse condition (first tolerance-colored, last
not) fails, contradicting the claim that this sequence is reversed
before decoding. -/
theorem orient_gold_brown_counterexample :
    orient ["gold", "red", "violet", "brown"] = ["gold", "red", "violet", "brown"] ∧
    ["gold", "red", "violet", "brown"].reverse
      ≠ ["gold", "red", "violet", "brown"] := by decide

/-- **C7 (amended).** The general rule holds as stated: a non-empty
sequence whose first color is in `TOL_COLORS` and whose last color is
not is reversed before decoding.  The example
`["gold","red","violet","brown"]`, however, ends in the tolerance
color brown and is passed through unchanged; an example that *is*
reversed is `["gold","red","violet","black"]`. -/
theorem orient_reverses_tol_first :
    (∀ colors : List String, colors ≠ [] →
        colors.headD "" ∈ TOL_COLORS → colors.getLastD "" ∉ TOL_COLORS →
        orient colors = colors.reverse) ∧
    orient ["gold", "red", "violet", "black"] = ["black", "violet", "red", "gold"] ∧
    orient ["gold", "red", "violet", "brown"]
      = ["gold", "red", "violet", "brown"] := by
  refine ⟨?_, by decide, by decide⟩
  intro colors h1 h2 h3
  have he : ¬ colors.isEmpty := by simp [List.isEmpty_iff, h1]
  simp_all [orient]

/-- Witness for the amended C7 at a concrete input whose first color is
a tolerance color and whose last is not. -/
theorem orient_reverses_tol_first_witness :
    orient ["gold", "red", "violet", "black"]
      = ["gold", "red", "violet", "black"].reverse :=
  orient_reverses_tol_first.1 ["gold", "red", "violet", "black"]
    (by decide) (by decide) (by decide)

/-- **C10.** The orientation step reverses only when the first color is
a tolerance color and the last is not: any non-empty sequence whose
first and last colors are both tolerance colors is passed to the
decoder unchanged (e.g. first gold, last brown), and any sequence whose
first color is not a tolerance color is also passed unchanged. -/
theorem orient_unchanged_otherwise :
    (∀ colors : List String, colors ≠ [] →
        colors.headD "" ∈ TOL_COLORS → colors.getLastD "" ∈ TOL_COLORS →
        orient colors = colors) ∧
    (∀ colors : List String, colors.headD "" ∉ TOL_COLORS →
        orient colors = colors) ∧
    orient ["gold", "red", "violet", "brown"]
      = ["gold", "red", "violet", "brown"] := by
  refine ⟨?_, ?_, by decide⟩
  · intro colors h1 h2 h3
    simp_all [orient]
  · intro colors h
    simp_all [orient]

/-- Witness for C10: both ends tolerance-colored (silver … gold) and a
non-tolerance first color (black … gold) both pass through unchanged. -/
theorem orient_unchanged_otherwise_witness :
    orient ["silver", "black", "gold"] = ["silver", "black", "gold"] ∧
    orient ["black", "red", "gold"] = ["black", "red", "gold"] :=
  ⟨orient_unchanged_otherwise.1 ["silver", "black", "gold"]
      (by decide) (by decide) (by decide),
   orient_unchanged_otherwise.2.1 ["black", "red", "gold"] (by decide)⟩

/-- **C9.** `norm_color` is total and never fails: it strips
surrounding whitespace and lowercases its input (so lookup is
case-insensitive), consults the fixed synonym map on the result
("gray"→"grey", "purple"→"violet", "golden"→"gold", …), and returns
the stripped lowercased input unchanged when no synonym matches, so
unrecognized strings pass through verbatim. -/
theorem norm_color_normalizes :
    (∀ s : String, norm_color s = (ALIASES (pyLower (pyStrip s))).getD
        (pyLower (pyStrip s))) ∧
    (∀ s : String, ALIASES (pyLower (pyStrip s)) = none →
        norm_color s = pyLower (pyStrip s)) ∧
    norm_color "gray" = "grey" ∧
    norm_color " PURPLE " = "violet" ∧
    norm_color "Golden" = "gold" ∧
    norm_color "turquoise" = "turquoise" ∧
    norm_color " Turquoise " = "turquoise" := by
  refine ⟨fun s => rfl, fun s h => by simp [norm_color, h], ?_, ?_, ?_, ?_, ?_⟩ <;>
    decide

/-- Witness for C9 pass-through at a concrete unrecognized string. -/
theorem norm_color_normalizes_witness :
    norm_color "beige" = pyLower (pyStrip "beige") :=
  norm_color_normalizes.2.1 "beige" (by decide)

/-- **C8.** `human` returns absent for absent input; for a present
value it selects the largest unit prefix among giga (10⁹), mega (10⁶),
kilo (10³), unit (1) whose threshold the value meets, divides by it,
and renders exactly two decimal places followed by the unit symbol,
falling back to plain ohms with two decimals below 1; concretely
`human 4700 = "4.70 kΩ"`, `human (1/2) = "0.50 Ω"`, `human none = none`. -/
theorem human_formats :
    human none = none ∧
    (∀ v : ℚ, 1000000000 ≤ v →
        human (some v) = some (twoDec (v / 1000000000) ++ " GΩ")) ∧
    (∀ v : ℚ, 1000000 ≤ v → v < 1000000000 →
        human (some v) = some (twoDec (v / 1000000) ++ " MΩ")) ∧
    (∀ v : ℚ, 1000 ≤ v → v < 1000000 →
        human (some v) = some (twoDec (v / 1000) ++ " kΩ")) ∧
    (∀ v : ℚ, 1 ≤ v → v < 1000 →
        human (some v) = some (twoDec v ++ " Ω")) ∧
    (∀ v : ℚ, v < 1 → human (some v) = some (twoDec v ++ " Ω")) ∧
    human (some 4700) = some "4.70 kΩ" ∧
    human (some (1/2)) = some "0.50 Ω" := by
  refine ⟨rfl, ?_, ?_, ?_, ?_, ?_, ?_, ?_⟩
  · intro v h
    simp only [human]
    rw [if_pos h]
  · intro v h1 h2
    simp only [human]
    rw [if_neg (not_le.mpr h2), if_pos h1]
  · intro v h1 h2
    simp only [human]
    rw [if_neg (not_le.mpr (by linarith)), if_neg (not_le.mpr h2), if_pos h1]
  · intro v h1 h2
    simp only [human]
    rw [if_neg (not_le.mpr (by linarith)), if_neg (not_le.mpr (by linarith)),
      if_neg (not_le.mpr h2), if_pos h1, div_one]
  · intro v h
    simp only [human]
    rw [if_neg (not_le.mpr (by linarith)), if_neg (not_le.mpr (by linarith)),
      if_neg (not_le.mpr (by linarith)), if_neg (not_le.mpr h)]
  · norm_num [human, twoDec, roundHalfEven]; rfl
  · norm_num [human, twoDec, roundHalfEven]; rfl

/-- Witness for C8 at the kilo threshold and below the unit threshold. -/
theorem human_formats_witness :
    human (some 4700) = some (twoDec ((4700 : ℚ) / 1000) ++ " kΩ") ∧
    human (some (1/2)) = some (twoDec ((1 : ℚ) / 2) ++ " Ω") :=
  ⟨human_formats.2.2.2.1 4700 (by norm_num) (by norm_num),
   human_formats.2.2.2.2.2.1 (1/2) (by norm_num)⟩

/-- `pickE24` is the strict-improvement fold of `pickStep`. -/
theorem pickE24_eq_foldl (t : ℚ) : pickE24 t = List.foldl (pickStep t) 10 E24 := rfl

/-- The strict-improvement fold keeps the *first* element at minimal
distance to `t`: the result splits `b :: l` into a strictly-farther
prefix and a no-closer remainder. -/
theorem pickFold_split (t : ℚ) (l : List ℚ) : ∀ b : ℚ,
    ∃ l₁ l₂ : List ℚ,
      b :: l = l₁ ++ List.foldl (pickStep t) b l :: l₂ ∧
      (∀ y ∈ l₁, |List.foldl (pickStep t) b l - t| < |y - t|) ∧
      (∀ y ∈ b :: l, |List.foldl (pickStep t) b l - t| ≤ |y - t|) := by
  induction l with
  | nil =>
    intro b
    refine ⟨[], [], rfl, by simp, ?_⟩
    intro y hy
    simp only [List.foldl_nil, List.mem_singleton] at *
    subst hy
    exact le_refl _
  | cons x xs ih =>
    intro b
    rw [List.foldl_cons]
    obtain ⟨l₁, l₂, hsplit, hstrict, hmin⟩ := ih (pickStep t b x)
    by_cases hx : |x - t| < |b - t|
    · have hbx : pickStep t b x = x := if_pos hx
      rw [hbx] at hsplit hstrict hmin ⊢
      refine ⟨b :: l₁, l₂, ?_, ?_, ?_⟩
      · rw [List.cons_append, ← hsplit]
      · intro y hy
        rcases List.mem_cons.mp hy with rfl | hy
        · exact lt_of_le_of_lt (hmin x (List.mem_cons_self x xs)) hx
        · exact hstrict y hy
      · intro y hy
        rcases List.mem_cons.mp hy with rfl | hy
        · exact le_of_lt (lt_of_le_of_lt (hmin x (List.mem_cons_self x xs)) hx)
        · exact hmin y hy
    · have hbx : pickStep t b x = b := if_neg hx
      rw [hbx] at hsplit hstrict hmin ⊢
      have hbx' : |b - t| ≤ |x - t| := not_lt.mp hx
      have hminall : ∀ y ∈ b :: x :: xs,
          |List.foldl (pickStep t) b xs - t| ≤ |y - t| := by
        intro y hy
        rcases List.mem_cons.mp hy with rfl | hy
        · exact hmin y (List.mem_cons_self y xs)
        · rcases List.mem_cons.mp hy with rfl | hy
          · exact le_trans (hmin b (List.mem_cons_self b xs)) hbx'
          · exact hmin y (List.mem_cons.mpr (Or.inr hy))
      cases l₁ with
      | nil =>
        simp only [List.nil_append] at hsplit
        injection hsplit with h1 h2
        refine ⟨[], x :: xs, ?_, by simp, hminall⟩
        rw [List.nil_append, ← h1]
      | cons z l₁' =>
        rw [List.cons_append] at hsplit
        injection hsplit with h1 h2
        have hb_strict : |List.foldl (pickStep t) b xs - t| < |b - t| := by
          have h := hstrict z (List.mem_cons_self z l₁')
          rwa [← h1] at h
        refine ⟨b :: x :: l₁', l₂, ?_, ?_, hminall⟩
        · rw [List.cons_append, List.cons_append, ← h2]
        · intro y hy
          rcases List.mem_cons.mp hy with rfl | hy
          · exact hb_strict
          · rcases List.mem_cons.mp hy with rfl | hy
            · exact lt_of_lt_of_le hb_strict hbx'
            · exact hstrict y (List.mem_cons.mpr (Or.inr hy))

/-- The scan result is an element of the E24 table. -/
theorem pickE24_mem (t : ℚ) : pickE24 t ∈ E24 := by
  obtain ⟨l₁, l₂, hsplit, -, -⟩ := pickFold_split t E24 10
  have h : pickE24 t ∈ (10 : ℚ) :: E24 := by
    rw [pickE24_eq_foldl, hsplit]
    exact List.mem_append.mpr (Or.inr (List.mem_cons_self _ _))
  rcases List.mem_cons.mp h with h | h
  · rw [h]; decide
  · exact h

/-- The scan result minimizes the distance to `t` over the table. -/
theorem pickE24_min (t : ℚ) : ∀ x ∈ E24, |pickE24 t - t| ≤ |x - t| := by
  obtain ⟨l₁, l₂, hsplit, hstrict, hmin⟩ := pickFold_split t E24 10
  intro x hx
  rw [pickE24_eq_foldl]
  exact hmin x (List.mem_cons.mpr (Or.inr hx))

/-- Among table entries at the same minimal distance, the scan result
is the least one (the table is ascending, so first minimal = lowest). -/
theorem pickE24_first (t : ℚ) :
    ∀ x ∈ E24, |x - t| = |pickE24 t - t| → pickE24 t ≤ x := by
  obtain ⟨l₁, l₂, hsplit, hstrict, hmin⟩ := pickFold_split t E24 10
  intro x hx heq
  rw [pickE24_eq_foldl] at heq ⊢
  have hx' : x ∈ (10 : ℚ) :: E24 := List.mem_cons.mpr (Or.inr hx)
  rw [hsplit] at hx'
  rcases List.mem_append.mp hx' with h | h
  · have hlt := hstrict x h
    rw [heq] at hlt
    exact absurd hlt (lt_irrefl _)
  · rcases List.mem_cons.mp h with rfl | h
    · exact le_refl _
    · have hsorted : List.Sorted (· ≤ ·) ((10 : ℚ) :: E24) := by decide
      rw [hsplit] at hsorted
      exact List.rel_of_sorted_cons (List.pairwise_append.mp hsorted).2.1 x h

/-- A table entry snaps to itself. -/
theorem pickE24_self {r : ℚ} (h : r ∈ E24) : pickE24 r = r := by
  have h1 := pickE24_min r r h
  rw [sub_self, abs_zero] at h1
  have h2 : pickE24 r - r = 0 :=
    abs_eq_zero.mp (le_antisymm h1 (abs_nonneg _))
  linarith [h2]

/-- Every E24 entry lies in `[10, 91]`. -/
theorem E24_bounds : ∀ x ∈ E24, 10 ≤ x ∧ x ≤ 91 := by decide

/-- `10 ^ Int.log 10 v ≤ v` for positive `v`. -/
theorem ten_zpow_log_le {v : ℚ} (hv : 0 < v) : (10 : ℚ) ^ Int.log 10 v ≤ v := by
  have h := Int.zpow_log_le_self (b := 10) (R := ℚ) (by norm_num) hv
  simpa using h

/-- `v < 10 ^ (Int.log 10 v + 1)`. -/
theorem lt_ten_zpow_succ_log (v : ℚ) : v < (10 : ℚ) ^ (Int.log 10 v + 1) := by
  have h := Int.lt_zpow_succ_log_self (b := 10) (R := ℚ) (by norm_num) v
  simpa using h

/-- `Int.log 10` is the unique exponent sandwiching `v` between
consecutive powers of ten. -/
theorem int_log10_unique {v : ℚ} {e : ℤ} (h1 : (10 : ℚ) ^ e ≤ v)
    (h2 : v < (10 : ℚ) ^ (e + 1)) : Int.log 10 v = e := by
  have hv : 0 < v := lt_of_lt_of_le (zpow_pos (by norm_num) e) h1
  have hle : e ≤ Int.log 10 v := by
    rw [← Int.zpow_le_iff_le_log (by norm_num) hv]
    exact_mod_cast h1
  have hlt : Int.log 10 v < e + 1 := by
    rw [← Int.lt_zpow_iff_log_lt (by norm_num) hv]
    exact_mod_cast h2
  omega

/-- `snap_e24` on a positive value, unfolded. -/
theorem snap_pos_eq {v : ℚ} (hv : 0 < v) :
    snap_e24 (some v)
      = some (pickE24 (v / (10 : ℚ) ^ Int.log 10 v * 10) / 10
          * (10 : ℚ) ^ Int.log 10 v) := by
  simp [snap_e24, not_le.mpr hv]

/-- **C5.** `snap` returns absent input and non-positive values
unchanged; for `v > 0` it forms `decade = 10 ^ floor(log10 v)`,
normalizes to `norm = v / decade * 10`, picks the E24 entry at minimal
absolute distance to `norm` — ties resolved to the first (lowest)
entry in ascending table order — and returns `(entry / 10) * decade`;
concretely `snap 470 = 470`, `snap 460 = 470`, `snap 0 = 0`,
`snap none = none`. -/
theorem snap_e24_spec :
    (∀ v : ℚ, 0 < v → ∃ e : ℤ, ∃ r : ℚ, r ∈ E24 ∧
        (10 : ℚ) ^ e ≤ v ∧ v < (10 : ℚ) ^ (e + 1) ∧
        (∀ x ∈ E24, |r - v / (10 : ℚ) ^ e * 10| ≤ |x - v / (10 : ℚ) ^ e * 10|) ∧
        (∀ x ∈ E24, |x - v / (10 : ℚ) ^ e * 10| = |r - v / (10 : ℚ) ^ e * 10| →
          r ≤ x) ∧
        snap_e24 (some v) = some (r / 10 * (10 : ℚ) ^ e)) ∧
    (∀ v : ℚ, v ≤ 0 → snap_e24 (some v) = some v) ∧
    snap_e24 none = none ∧
    snap_e24 (some 470) = some 470 ∧
    snap_e24 (some 460) = some 470 ∧
    snap_e24 (some 0) = some 0 := by
  have h470 : Int.log 10 (470 : ℚ) = 2 := int_log10_unique (by norm_num) (by norm_num)
  have h460 : Int.log 10 (460 : ℚ) = 2 := int_log10_unique (by norm_num) (by norm_num)
  refine ⟨?_, ?_, rfl, ?_, ?_, ?_⟩
  · intro v hv
    exact ⟨Int.log 10 v, pickE24 (v / (10 : ℚ) ^ Int.log 10 v * 10), pickE24_mem _,
      ten_zpow_log_le hv, lt_ten_zpow_succ_log v, pickE24_min _, pickE24_first _,
      snap_pos_eq hv⟩
  · intro v hv
    simp [snap_e24, hv]
  · rw [snap_pos_eq (by norm_num), h470,
      show (470 : ℚ) / (10 : ℚ) ^ (2 : ℤ) * 10 = 47 by norm_num,
      pickE24_self (by decide : (47 : ℚ) ∈ E24)]
    norm_num
  · rw [snap_pos_eq (by norm_num), h460,
      show (460 : ℚ) / (10 : ℚ) ^ (2 : ℤ) * 10 = 46 by norm_num,
      show pickE24 46 = 47 by norm_num [pickE24, E24]]
    norm_num
  · simp [snap_e24]

/-- Witness for C5 on the positive branch at `v = 470`. -/
theorem snap_e24_spec_witness :
    ∃ e : ℤ, ∃ r : ℚ, r ∈ E24 ∧
      (10 : ℚ) ^ e ≤ 470 ∧ (470 : ℚ) < (10 : ℚ) ^ (e + 1) ∧
      (∀ x ∈ E24, |r - 470 / (10 : ℚ) ^ e * 10| ≤ |x - 470 / (10 : ℚ) ^ e * 10|) ∧
      (∀ x ∈ E24, |x - 470 / (10 : ℚ) ^ e * 10| = |r - 470 / (10 : ℚ) ^ e * 10| →
        r ≤ x) ∧
      snap_e24 (some 470) = some (r / 10 * (10 : ℚ) ^ e) :=
  snap_e24_spec.1 470 (by norm_num)

/-- **C6.** `snap` is idempotent: for every `v > 0`,
`snap (snap v) = snap v`. -/
theorem snap_e24_idempotent (v : ℚ) (hv : 0 < v) :
    snap_e24 (snap_e24 (some v)) = snap_e24 (some v) := by
  have hd : (0 : ℚ) < (10 : ℚ) ^ Int.log 10 v := zpow_pos (by norm_num) _
  set e := Int.log 10 v with he
  set r := pickE24 (v / (10 : ℚ) ^ e * 10) with hr
  have hmem : r ∈ E24 := pickE24_mem _
  obtain ⟨hrlo, hrhi⟩ := E24_bounds r hmem
  have hwpos : (0 : ℚ) < r / 10 * (10 : ℚ) ^ e := by positivity
  have hlow : (10 : ℚ) ^ e ≤ r / 10 * (10 : ℚ) ^ e := by
    nth_rewrite 1 [show (10 : ℚ) ^ e = 10 / 10 * (10 : ℚ) ^ e by ring]
    gcongr
  have hhigh : r / 10 * (10 : ℚ) ^ e < (10 : ℚ) ^ (e + 1) := by
    rw [zpow_add_one₀ (by norm_num : (10 : ℚ) ≠ 0)]
    calc r / 10 * (10 : ℚ) ^ e ≤ 91 / 10 * (10 : ℚ) ^ e := by gcongr
    _ < (10 : ℚ) ^ e * 10 := by nlinarith [hd]
  have hlogw : Int.log 10 (r / 10 * (10 : ℚ) ^ e) = e := int_log10_unique hlow hhigh
  have hnormw : r / 10 * (10 : ℚ) ^ e / (10 : ℚ) ^ e * 10 = r := by
    field_simp
    ring
  rw [snap_pos_eq hv, ← he, ← hr, snap_pos_eq hwpos, hlogw, hnormw,
    pickE24_self hmem]

/-- Witness for C6 at `v = 470`. -/
theorem snap_e24_idempotent_witness :
    snap_e24 (snap_e24 (some 470)) = snap_e24 (some 470) :=
  snap_e24_idempotent 470 (by norm_num)

end ResistorReader
